import Mathlib

/-!
Verification of the fixed-schema Binance book-ticker extractor
(`src/main.rs`) against its natural-language specification.

Modelling conventions:
* A message buffer (`&str` in Rust) is modelled as a `List Char`.  The feed
  messages are ASCII, so character positions coincide with the byte offsets
  used by `json.as_bytes()[i]`, `str::find` and slicing in the source.
* Every panic of the source (failed `assert_eq!`, `unwrap` of a missing
  decimal point, out-of-bounds indexing, or a failed integer parse) is
  modelled as `Option.none`; a successful decode is `some tick`.
* `u64` arithmetic is modelled on `Nat` with an explicit `% 2 ^ 64`
  (release-mode wrapping semantics).
* The hardware cycle counter read by `_rdtsc()` is nondeterministic, so it
  enters the model as explicit oracle arguments: the values of the two
  reads that `measure` performs.
-/

set_option maxHeartbeats 1000000
set_option maxRecDepth 100000

namespace Binance

/-- The double-quote character, written via its code point so that character
literals stay readable. -/
def qc : Char := Char.ofNat 34

/-- Configuration of the fixed byte layout, from `struct ParsingConfig`. -/
structure ParsingConfig where
  start : Nat
  price_precision : Nat
  volume_precision : Nat
  transaction_time_digits : Nat
deriving DecidableEq

/-- Decoded tick, from `struct BookTicker<'a>`: the transaction time and the
four borrowed text slices. -/
structure BookTicker where
  T : Nat
  b : List Char
  B : List Char
  a : List Char
  A : List Char
deriving DecidableEq

/-- Indexing a byte of the buffer, `json.as_bytes()[i]`; `none` models the
out-of-bounds panic. -/
def byteAt (json : List Char) (i : Nat) : Option Char := json[i]?

/-- First index of character `c` in a list, as `str::find(char)` on the
corresponding suffix of the buffer. -/
def findChar (c : Char) : List Char → Option Nat
  | [] => none
  | x :: xs => if x = c then some 0 else (findChar c xs).map (· + 1)

/-- Absolute index of the first occurrence of `c` at or after position `i`,
modelling `i + json[i..].find(c).unwrap()` (with `none` for the `unwrap`
panic, and also for the slice panic when `i` exceeds the length). -/
def findFrom (json : List Char) (i : Nat) (c : Char) : Option Nat :=
  (findChar c (json.drop i)).map (fun k => i + k)

/-- Subslice `json[s..e]` of the buffer.  The source only slices after its
bounds have been validated, so a total definition is faithful on every path
that can reach a result. -/
def slice (json : List Char) (s e : Nat) : List Char :=
  (json.drop s).take (e - s)

/-- ASCII-digit test, as used by Rust's `u64::from_str`. -/
def isDig (c : Char) : Bool := '0' ≤ c && c ≤ '9'

/-- Strip one optional leading plus sign, as `u64::from_str` accepts. -/
def stripPlus (s : List Char) : List Char :=
  match s with
  | c :: rest => if c = '+' then rest else s
  | [] => s

/-- Numeric value of a digit string (most significant digit first). -/
def digitVal (s : List Char) : Nat :=
  s.foldl (fun acc c => acc * 10 + (c.toNat - 48)) 0

/-- Model of `str::parse::<u64>()`: an optional leading `+`, then one or
more ASCII digits, failing on overflow past `2 ^ 64 - 1`. -/
def parseU64 (s : List Char) : Option Nat :=
  let ds := stripPlus s
  if ds = [] then none
  else if ds.all isDig then
    if digitVal ds < 2 ^ 64 then some (digitVal ds) else none
  else none

/-- Shallow embedding of `parse_book_ticker` from `src/main.rs`, line for
line: anchor byte check at `start`; for each quoted field, find the first
dot from the field start, end the field a fixed digit count after the dot,
check the closing quote, slice; skip 4 bytes after the anchor, 7 bytes
between quoted fields, 6 bytes before the timestamp; take
`transaction_time_digits` bytes, parse them, and check the trailing comma.
Every panic is `none`. -/
def parse_book_ticker (json : List Char) (cfg : ParsingConfig) : Option BookTicker :=
  (byteAt json cfg.start).bind fun c0 =>
  if c0 = 'b' then
    (findFrom json (cfg.start + 4) '.').bind fun dp1 =>
    (byteAt json (dp1 + cfg.price_precision + 1)).bind fun q1 =>
    if q1 = qc then
      (findFrom json (dp1 + cfg.price_precision + 1 + 7) '.').bind fun dp2 =>
      (byteAt json (dp2 + cfg.volume_precision + 1)).bind fun q2 =>
      if q2 = qc then
        (findFrom json (dp2 + cfg.volume_precision + 1 + 7) '.').bind fun dp3 =>
        (byteAt json (dp3 + cfg.price_precision + 1)).bind fun q3 =>
        if q3 = qc then
          (findFrom json (dp3 + cfg.price_precision + 1 + 7) '.').bind fun dp4 =>
          (byteAt json (dp4 + cfg.volume_precision + 1)).bind fun q4 =>
          if q4 = qc then
            (parseU64 (slice json (dp4 + cfg.volume_precision + 1 + 6)
                (dp4 + cfg.volume_precision + 1 + 6 + cfg.transaction_time_digits))).bind fun T =>
            (byteAt json (dp4 + cfg.volume_precision + 1 + 6 + cfg.transaction_time_digits)).bind fun cm =>
            if cm = ',' then
              some { T := T
                     b := slice json (cfg.start + 4) (dp1 + cfg.price_precision + 1)
                     B := slice json (dp1 + cfg.price_precision + 1 + 7) (dp2 + cfg.volume_precision + 1)
                     a := slice json (dp2 + cfg.volume_precision + 1 + 7) (dp3 + cfg.price_precision + 1)
                     A := slice json (dp3 + cfg.price_precision + 1 + 7) (dp4 + cfg.volume_precision + 1) }
            else none
          else none
        else none
      else none
    else none
  else none

/-- Extraction of one quoted numeric field, written directly from the
specification's step-by-step narration of the algorithm: locate the first
decimal point scanning forward from the field's start offset, end the field
a fixed number of fractional digits after the dot, verify that the byte
immediately after the field is the closing quote, and return the slice
together with its end offset. -/
def extractField (json : List Char) (fstart prec : Nat) : Option (List Char × Nat) :=
  (findFrom json fstart '.').bind fun dp =>
  (byteAt json (dp + prec + 1)).bind fun q =>
  if q = qc then some (slice json fstart (dp + prec + 1), dp + prec + 1) else none

/-- Extraction of the timestamp, from the specification's narration: take
exactly `digits` bytes starting at `tstart`, parse them as an unsigned
integer, and verify that the byte following them is a comma. -/
def extractTime (json : List Char) (tstart digits : Nat) : Option Nat :=
  (parseU64 (slice json tstart (tstart + digits))).bind fun T =>
  (byteAt json (tstart + digits)).bind fun cm =>
  if cm = ',' then some T else none

/-- The extractor recomposed from the specification's description of the
steps: anchor check, four quoted fields (skipping 4 bytes after the anchor
and 7 bytes between quoted fields), then the timestamp 6 bytes after the end
of the last quoted field. -/
def parse_book_ticker_steps (json : List Char) (cfg : ParsingConfig) : Option BookTicker :=
  (byteAt json cfg.start).bind fun c0 =>
  if c0 = 'b' then
    (extractField json (cfg.start + 4) cfg.price_precision).bind fun b1 =>
    (extractField json (b1.2 + 7) cfg.volume_precision).bind fun b2 =>
    (extractField json (b2.2 + 7) cfg.price_precision).bind fun b3 =>
    (extractField json (b3.2 + 7) cfg.volume_precision).bind fun b4 =>
    (extractTime json (b4.2 + 6) cfg.transaction_time_digits).bind fun T =>
    some { T := T, b := b1.1, B := b2.1, a := b3.1, A := b4.1 }
  else none

/-- Key text of the bid-price field, the five characters of a quoted JSON
key `b` followed by a colon and an opening quote. -/
def keyB : List Char := [qc, 'b', qc, ':', qc]

/-- Key text of the bid-quantity field. -/
def keyBB : List Char := [qc, 'B', qc, ':', qc]

/-- Key text of the ask-price field. -/
def keyA : List Char := [qc, 'a', qc, ':', qc]

/-- Key text of the ask-quantity field. -/
def keyAA : List Char := [qc, 'A', qc, ':', qc]

/-- Key text of the transaction-time field (an unquoted value, so no opening
quote). -/
def keyT : List Char := [qc, 'T', qc, ':']

/-- First index at or after which `pat` occurs as a contiguous sublist,
modelling `str::find(&str)`. -/
def findPat (pat : List Char) : List Char → Option Nat
  | [] => if pat = [] then some 0 else none
  | c :: rest =>
    if (c :: rest).take pat.length = pat then some 0
    else (findPat pat rest).map (· + 1)

/-- Absolute index of the first occurrence of `pat` at or after position
`i`. -/
def findPatFrom (json : List Char) (i : Nat) (pat : List Char) : Option Nat :=
  (findPat pat (json.drop i)).map (fun k => i + k)

/-- Modelled from the spec: the reference decode of the same message by a
general-purpose, schema-tolerant JSON parser, restricted to the fields the
program extracts.  (The repository uses `serde_json`/`sonic_rs` for this
reference path, but those calls are commented out, so only their contract
is available.)  Each field is located by searching for its key text from
the end of the previous field — no fixed offsets, no fixed digit counts:
a quoted value runs to the next quote, the timestamp value to the next
comma. -/
def refDecode (json : List Char) : Option BookTicker :=
  (findPat keyB json).bind fun i1 =>
  (findFrom json (i1 + 5) qc).bind fun e1 =>
  (findPatFrom json e1 keyBB).bind fun i2 =>
  (findFrom json (i2 + 5) qc).bind fun e2 =>
  (findPatFrom json e2 keyA).bind fun i3 =>
  (findFrom json (i3 + 5) qc).bind fun e3 =>
  (findPatFrom json e3 keyAA).bind fun i4 =>
  (findFrom json (i4 + 5) qc).bind fun e4 =>
  (findPatFrom json e4 keyT).bind fun i5 =>
  (findFrom json (i5 + 4) ',').bind fun e5 =>
  (parseU64 (slice json (i5 + 4) e5)).bind fun T =>
  some { T := T
         b := slice json (i1 + 5) e1
         B := slice json (i2 + 5) e2
         a := slice json (i3 + 5) e3
         A := slice json (i4 + 5) e4 }

/-- A well-formed message of the assumed fixed schema, assembled from an
arbitrary prefix, the four quoted numeric values, the timestamp digits and
an arbitrary suffix, with the exact delimiter text the schema fixes. -/
def render (pre bv Bv av Av Td suf : List Char) : List Char :=
  pre ++ keyB ++ bv ++ (qc :: ',' :: keyBB) ++ Bv ++ (qc :: ',' :: keyA) ++ av
      ++ (qc :: ',' :: keyAA) ++ Av ++ (qc :: ',' :: keyT) ++ Td ++ ',' :: suf

/-- A quoted numeric value with integer part `vi` and fractional part
`vf`. -/
def fld (vi vf : List Char) : List Char := vi ++ '.' :: vf

/-- Occurrence of `pat` at position `p` of `json`. -/
def pfxAt (json : List Char) (p : Nat) (pat : List Char) : Prop :=
  (json.drop p).take pat.length = pat

instance (json : List Char) (p : Nat) (pat : List Char) : Decidable (pfxAt json p pat) := by
  unfold pfxAt; infer_instance

/-- The concrete sample message from the specification and the source's
doc comment. -/
def c3msg : List Char :=
  ("\x7b\"e\":\"bookTicker\",\"u\":1,\"s\":\"BTCUSDT\",\"b\":\"83604.80\",\"B\":\"10.746\",\"a\":\"83604.90\",\"A\":\"9.514\",\"T\":1744760290967,\"E\":1744760290967\x7d").data

/-- Configuration for the sample message: `start` is the offset of the `b`
character of the bid-price key. -/
def c3cfg : ParsingConfig :=
  { start := 39, price_precision := 2, volume_precision := 3, transaction_time_digits := 13 }

/-- The tick the sample message must decode to. -/
def c3tick : BookTicker :=
  { T := 1744760290967
    b := ("83604.80").data
    B := ("10.746").data
    a := ("83604.90").data
    A := ("9.514").data }

/-! Driving loop, statistics and the measurement harness. -/

/-- Wrap-around bound of the `u64` counters. -/
def M64 : Nat := 2 ^ 64

/-- The mutable accumulators of `main`'s loop: `ticks_acc` and
`measurements_num`, both `u64`. -/
structure LoopStats where
  ticks_acc : Nat
  measurements_num : Nat
deriving DecidableEq

/-- One statistics update of the loop body: `ticks_acc += elapsed;
measurements_num += 1;` in `u64` arithmetic. -/
def updateStats (st : LoopStats) (elapsed : Nat) : LoopStats :=
  { ticks_acc := (st.ticks_acc + elapsed) % M64
    measurements_num := (st.measurements_num + 1) % M64 }

/-- Running average printed by the loop, `ticks_acc / measurements_num`
(unsigned integer division). -/
def avgOf (st : LoopStats) : Nat := st.ticks_acc / st.measurements_num

/-- The literal pattern `b":` that `main` passes to `text.find` on every
received message (the `dbg!` line). -/
def anchorPat : List Char := ['b', qc, ':']

/-- The hard-coded configuration `main` constructs before the loop. -/
def mainConfig : ParsingConfig :=
  { start := 51, price_precision := 2, volume_precision := 3, transaction_time_digits := 13 }

/-- Model of `counter_elapsed`: `_rdtsc() - start` in wrapping `u64`
arithmetic, with the second counter read supplied as the oracle value
`now`. -/
def counter_elapsed (start now : Nat) : Nat :=
  (now + (M64 - start % M64)) % M64

/-- Model of `measure`: the two counter reads are oracle arguments `c1`
(after the serializing fence) and `c2`; the measured operation is threaded
through an explicit state `σ` so that the number of its invocations is
observable.  `measure` performs the first read, invokes the operation once,
performs the second read, and returns the elapsed cycles paired with the
operation's result. -/
def measure {α σ : Type} (c1 c2 : Nat) (f : σ → α × σ) (s : σ) : (Nat × α) × σ :=
  let start := c1
  let fres := f s
  ((counter_elapsed start c2, fres.1), fres.2)

/-- Model of `main`'s receive loop over the text messages of the stream.
Each element of `msgs` is a received text message paired with the elapsed
cycle count its `measure` call observes (the counter is hardware state, so
the per-message elapsed values are oracle inputs).  Per message the loop
runs `text.find("b\":")` (the `dbg!` diagnostic, result discarded), decodes
with the unchanged `cfg`, and on success updates the statistics and
continues; a failed decode is a panic that aborts the loop with the
statistics not updated.  The result is the per-message trace of
(search result, decode result) plus the final statistics. -/
def runLoop (cfg : ParsingConfig) (st : LoopStats) :
    List (List Char × Nat) → List (Option Nat × Option BookTicker) × LoopStats
  | [] => ([], st)
  | (msg, elapsed) :: rest =>
    let searchRes := findPat anchorPat msg
    match parse_book_ticker msg cfg with
    | none => ([(searchRes, none)], st)
    | some tick =>
      let res := runLoop cfg (updateStats st elapsed) rest
      ((searchRes, some tick) :: res.1, res.2)

/-! Synthetic messages for the digit-count boundary property. -/

/-- Prefix of the synthetic messages (everything before the opening quote of
the `b` key). -/
def synthPre : List Char := ("\x7b\"u\":1,").data

/-- A synthetic quoted numeric value `1.00…0` with `d` fractional digits. -/
def synthV (d : Nat) : List Char := '1' :: '.' :: List.replicate d '0'

/-- Synthetic timestamp digits. -/
def synthT : List Char := ("1744760290967").data

/-- A schema-conforming synthetic message whose price fields carry `d`
(bid) and `p` (ask) fractional digits and whose volume fields carry 3. -/
def synthMsg (p d : Nat) : List Char :=
  render synthPre (synthV d) (synthV 3) (synthV p) (synthV 3) synthT []

/-- Configuration for the synthetic messages with price precision `p`. -/
def synthCfg (p : Nat) : ParsingConfig :=
  { start := 8, price_precision := p, volume_precision := 3, transaction_time_digits := 13 }

/-- The tick a correct synthetic message decodes to. -/
def synthTick (p : Nat) : BookTicker :=
  { T := 1744760290967, b := synthV p, B := synthV 3, a := synthV p, A := synthV 3 }

/-! Helper lemmas about the byte-level operations. -/

lemma byteAt_append_right (A B : List Char) (k : Nat) :
    byteAt (A ++ B) (A.length + k) = byteAt B k := by
  unfold byteAt
  rw [List.getElem?_append_right (by omega)]
  congr 1
  omega

lemma byteAt_some_lt {json : List Char} {i : Nat} {c : Char}
    (h : byteAt json i = some c) : i < json.length := by
  unfold byteAt at h
  exact (List.getElem?_eq_some_iff.mp h).1

lemma byteAt_none {json : List Char} {i : Nat} (h : json.length ≤ i) :
    byteAt json i = none :=
  List.getElem?_eq_none h

lemma findChar_cons_self (c : Char) (xs : List Char) :
    findChar c (c :: xs) = some 0 := by
  simp [findChar]

lemma findChar_append_of_notMem {c : Char} {A : List Char} (B : List Char)
    (h : c ∉ A) :
    findChar c (A ++ B) = (findChar c B).map (· + A.length) := by
  induction A with
  | nil =>
    cases hB : findChar c B <;> simp [hB]
  | cons a A ih =>
    have hac : ¬ (a = c) := fun e => h (by simp [e])
    have hcA : c ∉ A := fun e => h (List.mem_cons_of_mem _ e)
    rw [List.cons_append,
      show findChar c (a :: (A ++ B)) = (findChar c (A ++ B)).map (· + 1) from by
        simp [findChar, hac],
      ih hcA]
    cases hB : findChar c B with
    | none => rfl
    | some k => simp [Nat.add_assoc]

lemma notMem_of_all_isDig {c : Char} (hc : isDig c = false) {L : List Char}
    (h : L.all isDig = true) : c ∉ L := by
  intro hm
  have := List.all_eq_true.mp h c hm
  rw [hc] at this
  exact Bool.noConfusion this

lemma findChar_take {c : Char} {L : List Char} {k m : Nat}
    (h : findChar c L = some k) (hm : k < m) :
    findChar c (L.take m) = some k := by
  induction L generalizing k m with
  | nil => simp [findChar] at h
  | cons x xs ih =>
    by_cases hx : x = c
    · have hk0 : k = 0 := by
        simp only [findChar, if_pos hx] at h
        simpa using h.symm
      subst hk0
      cases m with
      | zero => omega
      | succ m' => simp [List.take_succ_cons, findChar, if_pos hx]
    · simp only [findChar, if_neg hx] at h
      cases hf : findChar c xs with
      | none => rw [hf] at h; simp at h
      | some k' =>
        rw [hf] at h
        simp at h
        cases m with
        | zero => omega
        | succ m' =>
          simp only [List.take_succ_cons, findChar, if_neg hx]
          rw [ih hf (by omega)]
          simp [h]

lemma findFrom_inv {json : List Char} {i : Nat} {c : Char} {d : Nat}
    (h : findFrom json i c = some d) :
    ∃ k, d = i + k ∧ findChar c (json.drop i) = some k := by
  unfold findFrom at h
  cases hf : findChar c (json.drop i) with
  | none => rw [hf] at h; simp at h
  | some k => rw [hf] at h; simp at h; exact ⟨k, h.symm, rfl⟩

lemma slice_of_append (X V R : List Char) :
    slice (X ++ V ++ R) X.length (X.length + V.length) = V := by
  unfold slice
  rw [List.append_assoc, List.drop_left, Nat.add_sub_cancel_left, List.take_left]

lemma slice_length {json : List Char} {s e : Nat} (hse : s ≤ e)
    (he : e ≤ json.length) : (slice json s e).length = e - s := by
  unfold slice
  rw [List.length_take, List.length_drop]
  omega

lemma seekChar (X D R : List Char) (c : Char) (h : c ∉ D) :
    findFrom (X ++ D ++ c :: R) X.length c = some (X.length + D.length) := by
  unfold findFrom
  rw [List.append_assoc, List.drop_left]
  rw [findChar_append_of_notMem _ h, findChar_cons_self]
  simp

lemma byteAt_after (X D R : List Char) (c : Char) :
    byteAt (X ++ D ++ c :: R) (X.length + D.length) = some c := by
  rw [List.append_assoc, byteAt_append_right]
  have h2 : byteAt (D ++ c :: R) (D.length + 0) = byteAt (c :: R) 0 :=
    byteAt_append_right D (c :: R) 0
  rw [Nat.add_zero] at h2
  rw [h2]
  simp [byteAt]

lemma findPat_eq {pat L : List Char} {k : Nat} (hk : pfxAt L k pat)
    (hlt : ∀ p, p < k → ¬ pfxAt L p pat) : findPat pat L = some k := by
  induction L generalizing k with
  | nil =>
    have hpat : pat = [] := by
      unfold pfxAt at hk
      simpa using hk.symm
    subst hpat
    cases k with
    | zero => simp [findPat]
    | succ k' =>
      exact absurd (show pfxAt [] 0 [] by simp [pfxAt]) (hlt 0 (Nat.succ_pos _))
  | cons c rest ih =>
    cases k with
    | zero =>
      unfold pfxAt at hk
      rw [List.drop_zero] at hk
      simp [findPat, hk]
    | succ k' =>
      have h0 : ¬ ((c :: rest).take pat.length = pat) := by
        have := hlt 0 (Nat.succ_pos _)
        unfold pfxAt at this
        simpa using this
      have hk' : pfxAt rest k' pat := by
        unfold pfxAt at hk ⊢
        simpa [List.drop_succ_cons] using hk
      have hlt' : ∀ p, p < k' → ¬ pfxAt rest p pat := by
        intro p hp hpf
        apply hlt (p + 1) (by omega)
        unfold pfxAt at hpf ⊢
        simpa [List.drop_succ_cons] using hpf
      simp [findPat, h0, ih hk' hlt']

lemma parseU64_digits {D : List Char} (hne : D ≠ []) (hd : D.all isDig = true)
    (hv : digitVal D < 2 ^ 64) : parseU64 D = some (digitVal D) := by
  have hsp : stripPlus D = D := by
    cases D with
    | nil => rfl
    | cons c r =>
      have hc : isDig c = true := List.all_eq_true.mp hd c (by simp)
      have hcp : ¬ (c = '+') := by
        intro e
        rw [e] at hc
        exact absurd hc (by decide)
      simp [stripPlus, hcp]
  unfold parseU64
  rw [hsp]
  rw [if_neg hne, if_pos hd, if_pos hv]

/-! Cumulative prefixes of a rendered message, used to name the byte
offsets of the four fields and the timestamp. -/

/-- Prefix of a rendered message up to the start of the bid-price value. -/
def X1 (pre : List Char) : List Char := pre ++ keyB

/-- Prefix up to the start of the bid-quantity value. -/
def X2 (pre bv : List Char) : List Char := X1 pre ++ bv ++ qc :: ',' :: keyBB

/-- Prefix up to the start of the ask-price value. -/
def X3 (pre bv Bv : List Char) : List Char := X2 pre bv ++ Bv ++ qc :: ',' :: keyA

/-- Prefix up to the start of the ask-quantity value. -/
def X4 (pre bv Bv av : List Char) : List Char := X3 pre bv Bv ++ av ++ qc :: ',' :: keyAA

/-- Prefix up to the start of the timestamp digits. -/
def XT (pre bv Bv av Av : List Char) : List Char := X4 pre bv Bv av ++ Av ++ qc :: ',' :: keyT

lemma X1_len (pre : List Char) : (X1 pre).length = pre.length + 5 := by
  simp [X1, keyB]

lemma X2_len (pre bv : List Char) : (X2 pre bv).length = (X1 pre).length + bv.length + 7 := by
  simp [X2, keyBB]
  omega

lemma X3_len (pre bv Bv : List Char) :
    (X3 pre bv Bv).length = (X2 pre bv).length + Bv.length + 7 := by
  simp [X3, keyA]
  omega

lemma X4_len (pre bv Bv av : List Char) :
    (X4 pre bv Bv av).length = (X3 pre bv Bv).length + av.length + 7 := by
  simp [X4, keyAA]
  omega

lemma XT_len (pre bv Bv av Av : List Char) :
    (XT pre bv Bv av Av).length = (X4 pre bv Bv av).length + Av.length + 6 := by
  simp [XT, keyT]
  omega

lemma fld_len (vi vf : List Char) : (fld vi vf).length = vi.length + vf.length + 1 := by
  simp [fld]
  omega

lemma render_d0 (pre bv Bv av Av Td suf : List Char) :
    ∃ R, render pre bv Bv av Av Td suf = pre ++ [qc] ++ 'b' :: R :=
  ⟨qc :: ':' :: qc :: (bv ++ (qc :: ',' :: keyBB) ++ Bv ++ (qc :: ',' :: keyA) ++ av
      ++ (qc :: ',' :: keyAA) ++ Av ++ (qc :: ',' :: keyT) ++ Td ++ ',' :: suf),
    by simp [render, keyB, List.append_assoc]⟩

lemma render_d1 (pre bv Bv av Av Td suf : List Char) :
    ∃ R, render pre bv Bv av Av Td suf = X1 pre ++ bv ++ qc :: R :=
  ⟨',' :: (keyBB ++ (Bv ++ (qc :: ',' :: keyA) ++ av ++ (qc :: ',' :: keyAA) ++ Av
      ++ (qc :: ',' :: keyT) ++ Td ++ ',' :: suf)),
    by simp [render, X1, List.append_assoc]⟩

lemma render_d2 (pre bv Bv av Av Td suf : List Char) :
    ∃ R, render pre bv Bv av Av Td suf = X2 pre bv ++ Bv ++ qc :: R :=
  ⟨',' :: (keyA ++ (av ++ (qc :: ',' :: keyAA) ++ Av ++ (qc :: ',' :: keyT) ++ Td
      ++ ',' :: suf)),
    by simp [render, X2, X1, List.append_assoc]⟩

lemma render_d3 (pre bv Bv av Av Td suf : List Char) :
    ∃ R, render pre bv Bv av Av Td suf = X3 pre bv Bv ++ av ++ qc :: R :=
  ⟨',' :: (keyAA ++ (Av ++ (qc :: ',' :: keyT) ++ Td ++ ',' :: suf)),
    by simp [render, X3, X2, X1, List.append_assoc]⟩

lemma render_d4 (pre bv Bv av Av Td suf : List Char) :
    ∃ R, render pre bv Bv av Av Td suf = X4 pre bv Bv av ++ Av ++ qc :: R :=
  ⟨',' :: (keyT ++ (Td ++ ',' :: suf)),
    by simp [render, X4, X3, X2, X1, List.append_assoc]⟩

lemma render_dT (pre bv Bv av Av Td suf : List Char) :
    render pre bv Bv av Av Td suf = XT pre bv Bv av Av ++ Td ++ ',' :: suf := by
  simp [render, XT, X4, X3, X2, X1, List.append_assoc]

/-- The facts the extractor needs about one quoted numeric field of a
message of the shape `X ++ vi.vf ++ " R`: where the first dot after the
field start is, that the byte a fixed digit count after it is the closing
quote, what the resulting slice is, and (for the reference decoder) where
the first quote after the field start is. -/
lemma fieldFacts (X vi vf R : List Char)
    (hvi : vi.all isDig = true) (hvf : vf.all isDig = true) :
    findFrom (X ++ fld vi vf ++ qc :: R) X.length '.' = some (X.length + vi.length)
    ∧ byteAt (X ++ fld vi vf ++ qc :: R) (X.length + vi.length + vf.length + 1) = some qc
    ∧ slice (X ++ fld vi vf ++ qc :: R) X.length (X.length + vi.length + vf.length + 1)
        = fld vi vf
    ∧ findFrom (X ++ fld vi vf ++ qc :: R) X.length qc
        = some (X.length + vi.length + vf.length + 1) := by
  have ei : X.length + vi.length + vf.length + 1 = X.length + (fld vi vf).length := by
    rw [fld_len]; omega
  have hq : qc ∉ fld vi vf := by
    intro hm
    have hm' : qc ∈ vi ∨ qc = '.' ∨ qc ∈ vf := by simpa [fld] using hm
    rcases hm' with h1 | h2 | h3
    · exact notMem_of_all_isDig (by decide) hvi h1
    · exact absurd h2 (by decide)
    · exact notMem_of_all_isDig (by decide) hvf h3
  refine ⟨?_, ?_, ?_, ?_⟩
  · have e : X ++ fld vi vf ++ qc :: R = X ++ vi ++ '.' :: (vf ++ qc :: R) := by
      simp [fld, List.append_assoc]
    rw [e]
    exact seekChar X vi (vf ++ qc :: R) '.' (notMem_of_all_isDig (by decide) hvi)
  · rw [ei]
    exact byteAt_after X (fld vi vf) R qc
  · rw [ei]
    exact slice_of_append X (fld vi vf) (qc :: R)
  · rw [ei]
    exact seekChar X (fld vi vf) R qc hq

/-- Evaluation of the fast extractor on an arbitrary well-formed message of
the assumed schema: it succeeds and returns exactly the rendered field
values and the timestamp value. -/
lemma parse_render
    (pre bi bf Bi Bf ai af Ai Af Td suf : List Char) (cfg : ParsingConfig)
    (hbi : bi.all isDig = true) (hbf : bf.all isDig = true)
    (hBi : Bi.all isDig = true) (hBf : Bf.all isDig = true)
    (hai : ai.all isDig = true) (haf : af.all isDig = true)
    (hAi : Ai.all isDig = true) (hAf : Af.all isDig = true)
    (hTne : Td ≠ []) (hTd : Td.all isDig = true) (hTv : digitVal Td < 2 ^ 64)
    (hstart : cfg.start = pre.length + 1)
    (hpp : cfg.price_precision = bf.length) (hpp2 : af.length = bf.length)
    (hvp : cfg.volume_precision = Bf.length) (hvp2 : Af.length = Bf.length)
    (htd : cfg.transaction_time_digits = Td.length) :
    parse_book_ticker (render pre (fld bi bf) (fld Bi Bf) (fld ai af) (fld Ai Af) Td suf) cfg
      = some { T := digitVal Td, b := fld bi bf, B := fld Bi Bf
               a := fld ai af, A := fld Ai Af } := by
  obtain ⟨R0, hd0⟩ := render_d0 pre (fld bi bf) (fld Bi Bf) (fld ai af) (fld Ai Af) Td suf
  obtain ⟨R1, hd1⟩ := render_d1 pre (fld bi bf) (fld Bi Bf) (fld ai af) (fld Ai Af) Td suf
  obtain ⟨R2, hd2⟩ := render_d2 pre (fld bi bf) (fld Bi Bf) (fld ai af) (fld Ai Af) Td suf
  obtain ⟨R3, hd3⟩ := render_d3 pre (fld bi bf) (fld Bi Bf) (fld ai af) (fld Ai Af) Td suf
  obtain ⟨R4, hd4⟩ := render_d4 pre (fld bi bf) (fld Bi Bf) (fld ai af) (fld Ai Af) Td suf
  have hdT := render_dT pre (fld bi bf) (fld Bi Bf) (fld ai af) (fld Ai Af) Td suf
  have h0 : byteAt (render pre (fld bi bf) (fld Bi Bf) (fld ai af) (fld Ai Af) Td suf)
      (pre.length + 1) = some 'b' := by
    rw [hd0]
    simpa using byteAt_after pre [qc] R0 'b'
  have F1 := fieldFacts (X1 pre) bi bf R1 hbi hbf
  rw [← hd1] at F1
  obtain ⟨F1d, F1q, F1s, F1f⟩ := F1
  have F2 := fieldFacts (X2 pre (fld bi bf)) Bi Bf R2 hBi hBf
  rw [← hd2] at F2
  obtain ⟨F2d, F2q, F2s, F2f⟩ := F2
  have F3 := fieldFacts (X3 pre (fld bi bf) (fld Bi Bf)) ai af R3 hai haf
  rw [← hd3, hpp2] at F3
  obtain ⟨F3d, F3q, F3s, F3f⟩ := F3
  have F4 := fieldFacts (X4 pre (fld bi bf) (fld Bi Bf) (fld ai af)) Ai Af R4 hAi hAf
  rw [← hd4, hvp2] at F4
  obtain ⟨F4d, F4q, F4s, F4f⟩ := F4
  have hsliceT : slice (render pre (fld bi bf) (fld Bi Bf) (fld ai af) (fld Ai Af) Td suf)
      (XT pre (fld bi bf) (fld Bi Bf) (fld ai af) (fld Ai Af)).length
      ((XT pre (fld bi bf) (fld Bi Bf) (fld ai af) (fld Ai Af)).length + Td.length) = Td := by
    rw [hdT]
    exact slice_of_append _ Td (',' :: suf)
  have hcomma : byteAt (render pre (fld bi bf) (fld Bi Bf) (fld ai af) (fld Ai Af) Td suf)
      ((XT pre (fld bi bf) (fld Bi Bf) (fld ai af) (fld Ai Af)).length + Td.length)
      = some ',' := by
    rw [hdT]
    exact byteAt_after _ Td suf ','
  have hT := parseU64_digits hTne hTd hTv
  simp only [parse_book_ticker]
  rw [hstart, hpp, hvp, htd]
  rw [h0]
  simp only [Option.some_bind]
  simp only [eq_self_iff_true, if_true]
  rw [show pre.length + 1 + 4 = (X1 pre).length from by rw [X1_len]]
  rw [F1d]
  simp only [Option.some_bind]
  rw [F1q]
  simp only [Option.some_bind]
  simp only [eq_self_iff_true, if_true]
  rw [show (X1 pre).length + bi.length + bf.length + 1 + 7
      = (X2 pre (fld bi bf)).length from by rw [X2_len, fld_len]; omega]
  rw [F2d]
  simp only [Option.some_bind]
  rw [F2q]
  simp only [Option.some_bind]
  simp only [eq_self_iff_true, if_true]
  rw [show (X2 pre (fld bi bf)).length + Bi.length + Bf.length + 1 + 7
      = (X3 pre (fld bi bf) (fld Bi Bf)).length from by rw [X3_len, fld_len]; omega]
  rw [F3d]
  simp only [Option.some_bind]
  rw [F3q]
  simp only [Option.some_bind]
  simp only [eq_self_iff_true, if_true]
  rw [show (X3 pre (fld bi bf) (fld Bi Bf)).length + ai.length + bf.length + 1 + 7
      = (X4 pre (fld bi bf) (fld Bi Bf) (fld ai af)).length from by
    rw [X4_len, fld_len]; omega]
  rw [F4d]
  simp only [Option.some_bind]
  rw [F4q]
  simp only [Option.some_bind]
  simp only [eq_self_iff_true, if_true]
  rw [show (X4 pre (fld bi bf) (fld Bi Bf) (fld ai af)).length + Ai.length + Bf.length + 1 + 6
      = (XT pre (fld bi bf) (fld Bi Bf) (fld ai af) (fld Ai Af)).length from by
    rw [XT_len, fld_len]; omega]
  rw [hsliceT, hT]
  simp only [Option.some_bind]
  rw [hcomma]
  simp only [Option.some_bind]
  simp only [eq_self_iff_true, if_true]
  rw [F1s, F2s, F3s, F4s]

/-- After a closing quote and a comma, the next field's key text is found
exactly two positions further on (it cannot match earlier, because a key
starts with a quote and its second character is not a comma). -/
lemma findPat_after_quote_comma (key R : List Char) (hlen : 2 ≤ key.length)
    (hk0 : byteAt key 0 = some qc) (hk1 : byteAt key 1 ≠ some ',') :
    findPat key (qc :: ',' :: (key ++ R)) = some 2 := by
  apply findPat_eq
  · unfold pfxAt
    simp [List.take_left]
  · intro p hp hpf
    unfold pfxAt at hpf
    match p, hp with
    | 0, _ =>
      apply hk1
      rw [List.drop_zero] at hpf
      unfold byteAt
      rw [← hpf, List.getElem?_take_of_lt (by omega)]
      simp
    | 1, _ =>
      have h0 : byteAt key 0 = some ',' := by
        unfold byteAt
        rw [← hpf, List.getElem?_take_of_lt (by omega)]
        simp
      have : qc = ',' := by
        have := hk0.symm.trans h0
        exact Option.some.inj this
      exact absurd this (by decide)

/-- Tail of a rendered message after the bid-quantity key. -/
def T2 (Bv av Av Td suf : List Char) : List Char :=
  Bv ++ (qc :: ',' :: keyA) ++ av ++ (qc :: ',' :: keyAA) ++ Av
     ++ (qc :: ',' :: keyT) ++ Td ++ ',' :: suf

/-- Tail of a rendered message after the ask-price key. -/
def T3 (av Av Td suf : List Char) : List Char :=
  av ++ (qc :: ',' :: keyAA) ++ Av ++ (qc :: ',' :: keyT) ++ Td ++ ',' :: suf

/-- Tail of a rendered message after the ask-quantity key. -/
def T4 (Av Td suf : List Char) : List Char :=
  Av ++ (qc :: ',' :: keyT) ++ Td ++ ',' :: suf

lemma render_e1 (pre bv Bv av Av Td suf : List Char) :
    render pre bv Bv av Av Td suf
      = (X1 pre ++ bv) ++ (qc :: ',' :: (keyBB ++ T2 Bv av Av Td suf)) := by
  simp [render, X1, T2, List.append_assoc]

lemma render_e2 (pre bv Bv av Av Td suf : List Char) :
    render pre bv Bv av Av Td suf
      = (X2 pre bv ++ Bv) ++ (qc :: ',' :: (keyA ++ T3 av Av Td suf)) := by
  simp [render, X2, X1, T3, List.append_assoc]

lemma render_e3 (pre bv Bv av Av Td suf : List Char) :
    render pre bv Bv av Av Td suf
      = (X3 pre bv Bv ++ av) ++ (qc :: ',' :: (keyAA ++ T4 Av Td suf)) := by
  simp [render, X3, X2, X1, T4, List.append_assoc]

lemma render_e4 (pre bv Bv av Av Td suf : List Char) :
    render pre bv Bv av Av Td suf
      = (X4 pre bv Bv av ++ Av) ++ (qc :: ',' :: (keyT ++ (Td ++ ',' :: suf))) := by
  simp [render, X4, X3, X2, X1, List.append_assoc]

/-- Evaluation of the schema-tolerant reference decoder on an arbitrary
well-formed message of the assumed schema: it returns exactly the rendered
field values and the timestamp value.  The only extra condition is that the
bid-price key text does not occur before its real position (inside the
message prefix), which is what keeps a key-directed reference decode
unambiguous. -/
lemma refDecode_render
    (pre bi bf Bi Bf ai af Ai Af Td suf : List Char)
    (hbi : bi.all isDig = true) (hbf : bf.all isDig = true)
    (hBi : Bi.all isDig = true) (hBf : Bf.all isDig = true)
    (hai : ai.all isDig = true) (haf : af.all isDig = true)
    (hAi : Ai.all isDig = true) (hAf : Af.all isDig = true)
    (hTne : Td ≠ []) (hTd : Td.all isDig = true) (hTv : digitVal Td < 2 ^ 64)
    (hno : ∀ p, p < pre.length →
      ¬ pfxAt (render pre (fld bi bf) (fld Bi Bf) (fld ai af) (fld Ai Af) Td suf) p keyB) :
    refDecode (render pre (fld bi bf) (fld Bi Bf) (fld ai af) (fld Ai Af) Td suf)
      = some { T := digitVal Td, b := fld bi bf, B := fld Bi Bf
               a := fld ai af, A := fld Ai Af } := by
  obtain ⟨R1, hd1⟩ := render_d1 pre (fld bi bf) (fld Bi Bf) (fld ai af) (fld Ai Af) Td suf
  obtain ⟨R2, hd2⟩ := render_d2 pre (fld bi bf) (fld Bi Bf) (fld ai af) (fld Ai Af) Td suf
  obtain ⟨R3, hd3⟩ := render_d3 pre (fld bi bf) (fld Bi Bf) (fld ai af) (fld Ai Af) Td suf
  obtain ⟨R4, hd4⟩ := render_d4 pre (fld bi bf) (fld Bi Bf) (fld ai af) (fld Ai Af) Td suf
  have hdT := render_dT pre (fld bi bf) (fld Bi Bf) (fld ai af) (fld Ai Af) Td suf
  have F1 := fieldFacts (X1 pre) bi bf R1 hbi hbf
  rw [← hd1] at F1
  obtain ⟨F1d, F1q, F1s, F1f⟩ := F1
  have F2 := fieldFacts (X2 pre (fld bi bf)) Bi Bf R2 hBi hBf
  rw [← hd2] at F2
  obtain ⟨F2d, F2q, F2s, F2f⟩ := F2
  have F3 := fieldFacts (X3 pre (fld bi bf) (fld Bi Bf)) ai af R3 hai haf
  rw [← hd3] at F3
  obtain ⟨F3d, F3q, F3s, F3f⟩ := F3
  have F4 := fieldFacts (X4 pre (fld bi bf) (fld Bi Bf) (fld ai af)) Ai Af R4 hAi hAf
  rw [← hd4] at F4
  obtain ⟨F4d, F4q, F4s, F4f⟩ := F4
  have hfp1 : findPat keyB
      (render pre (fld bi bf) (fld Bi Bf) (fld ai af) (fld Ai Af) Td suf)
      = some pre.length := by
    apply findPat_eq _ hno
    unfold pfxAt
    simp only [render, List.append_assoc]
    rw [List.drop_left, List.take_left]
  have G2 : findPatFrom (render pre (fld bi bf) (fld Bi Bf) (fld ai af) (fld Ai Af) Td suf)
      ((X1 pre).length + bi.length + bf.length + 1) keyBB
      = some ((X1 pre).length + bi.length + bf.length + 1 + 2) := by
    unfold findPatFrom
    have hdrop1 : (render pre (fld bi bf) (fld Bi Bf) (fld ai af) (fld Ai Af) Td suf).drop
        ((X1 pre).length + bi.length + bf.length + 1)
        = qc :: ',' :: (keyBB ++ T2 (fld Bi Bf) (fld ai af) (fld Ai Af) Td suf) := by
      rw [render_e1]
      exact List.drop_left' (by simp [fld_len]; omega)
    rw [hdrop1, findPat_after_quote_comma keyBB _ (by decide) (by decide) (by decide)]
    rfl
  have G3 : findPatFrom (render pre (fld bi bf) (fld Bi Bf) (fld ai af) (fld Ai Af) Td suf)
      ((X2 pre (fld bi bf)).length + Bi.length + Bf.length + 1) keyA
      = some ((X2 pre (fld bi bf)).length + Bi.length + Bf.length + 1 + 2) := by
    unfold findPatFrom
    have hdrop2 : (render pre (fld bi bf) (fld Bi Bf) (fld ai af) (fld Ai Af) Td suf).drop
        ((X2 pre (fld bi bf)).length + Bi.length + Bf.length + 1)
        = qc :: ',' :: (keyA ++ T3 (fld ai af) (fld Ai Af) Td suf) := by
      rw [render_e2]
      exact List.drop_left' (by simp [fld_len]; omega)
    rw [hdrop2, findPat_after_quote_comma keyA _ (by decide) (by decide) (by decide)]
    rfl
  have G4 : findPatFrom (render pre (fld bi bf) (fld Bi Bf) (fld ai af) (fld Ai Af) Td suf)
      ((X3 pre (fld bi bf) (fld Bi Bf)).length + ai.length + af.length + 1) keyAA
      = some ((X3 pre (fld bi bf) (fld Bi Bf)).length + ai.length + af.length + 1 + 2) := by
    unfold findPatFrom
    have hdrop3 : (render pre (fld bi bf) (fld Bi Bf) (fld ai af) (fld Ai Af) Td suf).drop
        ((X3 pre (fld bi bf) (fld Bi Bf)).length + ai.length + af.length + 1)
        = qc :: ',' :: (keyAA ++ T4 (fld Ai Af) Td suf) := by
      rw [render_e3]
      exact List.drop_left' (by simp [fld_len]; omega)
    rw [hdrop3, findPat_after_quote_comma keyAA _ (by decide) (by decide) (by decide)]
    rfl
  have GT : findPatFrom (render pre (fld bi bf) (fld Bi Bf) (fld ai af) (fld Ai Af) Td suf)
      ((X4 pre (fld bi bf) (fld Bi Bf) (fld ai af)).length + Ai.length + Af.length + 1) keyT
      = some ((X4 pre (fld bi bf) (fld Bi Bf) (fld ai af)).length + Ai.length + Af.length + 1
          + 2) := by
    unfold findPatFrom
    have hdrop4 : (render pre (fld bi bf) (fld Bi Bf) (fld ai af) (fld Ai Af) Td suf).drop
        ((X4 pre (fld bi bf) (fld Bi Bf) (fld ai af)).length + Ai.length + Af.length + 1)
        = qc :: ',' :: (keyT ++ (Td ++ ',' :: suf)) := by
      rw [render_e4]
      exact List.drop_left' (by simp [fld_len]; omega)
    rw [hdrop4, findPat_after_quote_comma keyT _ (by decide) (by decide) (by decide)]
    rfl
  have hfcomma : findFrom (render pre (fld bi bf) (fld Bi Bf) (fld ai af) (fld Ai Af) Td suf)
      (XT pre (fld bi bf) (fld Bi Bf) (fld ai af) (fld Ai Af)).length ','
      = some ((XT pre (fld bi bf) (fld Bi Bf) (fld ai af) (fld Ai Af)).length + Td.length) := by
    rw [hdT]
    exact seekChar _ Td suf ',' (notMem_of_all_isDig (by decide) hTd)
  have hsliceT : slice (render pre (fld bi bf) (fld Bi Bf) (fld ai af) (fld Ai Af) Td suf)
      (XT pre (fld bi bf) (fld Bi Bf) (fld ai af) (fld Ai Af)).length
      ((XT pre (fld bi bf) (fld Bi Bf) (fld ai af) (fld Ai Af)).length + Td.length) = Td := by
    rw [hdT]
    exact slice_of_append _ Td (',' :: suf)
  have hT := parseU64_digits hTne hTd hTv
  simp only [refDecode]
  rw [hfp1]
  simp only [Option.some_bind]
  rw [show pre.length + 5 = (X1 pre).length from by rw [X1_len]]
  rw [F1f]
  simp only [Option.some_bind]
  rw [G2]
  simp only [Option.some_bind]
  rw [show (X1 pre).length + bi.length + bf.length + 1 + 2 + 5
      = (X2 pre (fld bi bf)).length from by rw [X2_len, fld_len]; omega]
  rw [F2f]
  simp only [Option.some_bind]
  rw [G3]
  simp only [Option.some_bind]
  rw [show (X2 pre (fld bi bf)).length + Bi.length + Bf.length + 1 + 2 + 5
      = (X3 pre (fld bi bf) (fld Bi Bf)).length from by rw [X3_len, fld_len]; omega]
  rw [F3f]
  simp only [Option.some_bind]
  rw [G4]
  simp only [Option.some_bind]
  rw [show (X3 pre (fld bi bf) (fld Bi Bf)).length + ai.length + af.length + 1 + 2 + 5
      = (X4 pre (fld bi bf) (fld Bi Bf) (fld ai af)).length from by
    rw [X4_len, fld_len]; omega]
  rw [F4f]
  simp only [Option.some_bind]
  rw [GT]
  simp only [Option.some_bind]
  rw [show (X4 pre (fld bi bf) (fld Bi Bf) (fld ai af)).length + Ai.length + Af.length + 1 + 2
        + 4
      = (XT pre (fld bi bf) (fld Bi Bf) (fld ai af) (fld Ai Af)).length from by
    rw [XT_len, fld_len]; omega]
  rw [hfcomma]
  simp only [Option.some_bind]
  rw [hsliceT, hT]
  simp only [Option.some_bind]
  rw [F1s, F2s, F3s, F4s]

lemma ite_bind {α β : Type} (c : Prop) [Decidable c] (a : α) (k : α → Option β) :
    (if c then some a else none).bind k = if c then k a else none := by
  split <;> simp

/-- The extractor of the source and its recomposition from the
specification's step narration agree on every input. -/
lemma parse_eq_steps (json : List Char) (cfg : ParsingConfig) :
    parse_book_ticker json cfg = parse_book_ticker_steps json cfg := by
  unfold parse_book_ticker parse_book_ticker_steps extractField extractTime
  simp only [Option.bind_assoc, ite_bind, Option.none_bind, Option.some_bind]

/-- Inversion of a successful decode: every check of the fixed layout must
have passed, the four dots must have been found, the timestamp must have
parsed, and the returned slices are determined by the found positions. -/
lemma parse_some_inv {json : List Char} {cfg : ParsingConfig} {t : BookTicker}
    (h : parse_book_ticker json cfg = some t) :
    ∃ d1 d2 d3 d4,
      byteAt json cfg.start = some 'b' ∧
      findFrom json (cfg.start + 4) '.' = some d1 ∧
      byteAt json (d1 + cfg.price_precision + 1) = some qc ∧
      t.b = slice json (cfg.start + 4) (d1 + cfg.price_precision + 1) ∧
      findFrom json (d1 + cfg.price_precision + 1 + 7) '.' = some d2 ∧
      byteAt json (d2 + cfg.volume_precision + 1) = some qc ∧
      t.B = slice json (d1 + cfg.price_precision + 1 + 7) (d2 + cfg.volume_precision + 1) ∧
      findFrom json (d2 + cfg.volume_precision + 1 + 7) '.' = some d3 ∧
      byteAt json (d3 + cfg.price_precision + 1) = some qc ∧
      t.a = slice json (d2 + cfg.volume_precision + 1 + 7) (d3 + cfg.price_precision + 1) ∧
      findFrom json (d3 + cfg.price_precision + 1 + 7) '.' = some d4 ∧
      byteAt json (d4 + cfg.volume_precision + 1) = some qc ∧
      t.A = slice json (d3 + cfg.price_precision + 1 + 7) (d4 + cfg.volume_precision + 1) ∧
      parseU64 (slice json (d4 + cfg.volume_precision + 1 + 6)
        (d4 + cfg.volume_precision + 1 + 6 + cfg.transaction_time_digits)) = some t.T ∧
      byteAt json (d4 + cfg.volume_precision + 1 + 6 + cfg.transaction_time_digits)
        = some ',' := by
  unfold parse_book_ticker at h
  rw [Option.bind_eq_some] at h
  obtain ⟨c0, hc0, h⟩ := h
  by_cases hb : c0 = 'b'
  · subst hb
    rw [if_pos rfl] at h
    rw [Option.bind_eq_some] at h
    obtain ⟨d1, hd1, h⟩ := h
    rw [Option.bind_eq_some] at h
    obtain ⟨q1, hq1, h⟩ := h
    by_cases hq1e : q1 = qc
    · subst hq1e
      rw [if_pos rfl] at h
      rw [Option.bind_eq_some] at h
      obtain ⟨d2, hd2, h⟩ := h
      rw [Option.bind_eq_some] at h
      obtain ⟨q2, hq2, h⟩ := h
      by_cases hq2e : q2 = qc
      · subst hq2e
        rw [if_pos rfl] at h
        rw [Option.bind_eq_some] at h
        obtain ⟨d3, hd3, h⟩ := h
        rw [Option.bind_eq_some] at h
        obtain ⟨q3, hq3, h⟩ := h
        by_cases hq3e : q3 = qc
        · subst hq3e
          rw [if_pos rfl] at h
          rw [Option.bind_eq_some] at h
          obtain ⟨d4, hd4, h⟩ := h
          rw [Option.bind_eq_some] at h
          obtain ⟨q4, hq4, h⟩ := h
          by_cases hq4e : q4 = qc
          · subst hq4e
            rw [if_pos rfl] at h
            rw [Option.bind_eq_some] at h
            obtain ⟨T, hT, h⟩ := h
            rw [Option.bind_eq_some] at h
            obtain ⟨cm, hcm, h⟩ := h
            by_cases hcme : cm = ','
            · subst hcme
              rw [if_pos rfl] at h
              have ht : t = { T := T
                              b := slice json (cfg.start + 4)
                                (d1 + cfg.price_precision + 1)
                              B := slice json (d1 + cfg.price_precision + 1 + 7)
                                (d2 + cfg.volume_precision + 1)
                              a := slice json (d2 + cfg.volume_precision + 1 + 7)
                                (d3 + cfg.price_precision + 1)
                              A := slice json (d3 + cfg.price_precision + 1 + 7)
                                (d4 + cfg.volume_precision + 1) } :=
                (Option.some.inj h).symm
              refine ⟨d1, d2, d3, d4, hc0, hd1, hq1, ?_, hd2, hq2, ?_, hd3, hq3, ?_,
                hd4, hq4, ?_, ?_, hcm⟩
              · rw [ht]
              · rw [ht]
              · rw [ht]
              · rw [ht]
              · rw [ht]
                exact hT
            · rw [if_neg hcme] at h
              exact absurd h (by simp)
          · rw [if_neg hq4e] at h
            exact absurd h (by simp)
        · rw [if_neg hq3e] at h
          exact absurd h (by simp)
      · rw [if_neg hq2e] at h
        exact absurd h (by simp)
    · rw [if_neg hq1e] at h
      exact absurd h (by simp)
  · rw [if_neg hb] at h
    exact absurd h (by simp)

lemma M64_pos : 0 < M64 := by
  unfold M64
  positivity

/-- Trace of the loop when every message decodes: one anchor search and one
decode per message, every decode with the same configuration. -/
lemma runLoop_trace (cfg : ParsingConfig) (st : LoopStats) (msgs : List (List Char × Nat))
    (hok : ∀ m ∈ msgs, parse_book_ticker m.1 cfg ≠ none) :
    (runLoop cfg st msgs).1
      = msgs.map (fun m => (findPat anchorPat m.1, parse_book_ticker m.1 cfg)) := by
  induction msgs generalizing st with
  | nil => rfl
  | cons m rest ih =>
    obtain ⟨msg, elapsed⟩ := m
    cases hp : parse_book_ticker msg cfg with
    | none => exact absurd hp (hok (msg, elapsed) (by simp))
    | some tick =>
      simp only [runLoop, hp, List.map_cons]
      rw [ih (updateStats st elapsed) (fun m hm => hok m (List.mem_cons_of_mem _ hm))]

/-- Final statistics of the loop when every message decodes: the wrapped sum
of the elapsed samples and the wrapped message count. -/
lemma runLoop_stats (cfg : ParsingConfig) (msgs : List (List Char × Nat)) (st : LoopStats)
    (hok : ∀ m ∈ msgs, parse_book_ticker m.1 cfg ≠ none)
    (h1 : st.ticks_acc < M64) (h2 : st.measurements_num < M64) :
    (runLoop cfg st msgs).2.ticks_acc = (st.ticks_acc + (msgs.map Prod.snd).sum) % M64
    ∧ (runLoop cfg st msgs).2.measurements_num
        = (st.measurements_num + msgs.length) % M64 := by
  induction msgs generalizing st with
  | nil =>
    simp [runLoop, Nat.mod_eq_of_lt h1, Nat.mod_eq_of_lt h2]
  | cons m rest ih =>
    obtain ⟨msg, e⟩ := m
    cases hp : parse_book_ticker msg cfg with
    | none => exact absurd hp (hok (msg, e) (by simp))
    | some tick =>
      have hu1 : (updateStats st e).ticks_acc < M64 := Nat.mod_lt _ M64_pos
      have hu2 : (updateStats st e).measurements_num < M64 := Nat.mod_lt _ M64_pos
      have ihr := ih (updateStats st e) (fun m hm => hok m (List.mem_cons_of_mem _ hm))
        hu1 hu2
      constructor
      · simp only [runLoop, hp]
        rw [ihr.1]
        simp only [updateStats]
        rw [Nat.mod_add_mod]
        congr 1
        simp only [List.map_cons, List.sum_cons]
        omega
      · simp only [runLoop, hp]
        rw [ihr.2]
        simp only [updateStats]
        rw [Nat.mod_add_mod]
        congr 1
        simp only [List.length_cons]
        omega

/-- All layout checks a successful decode must have passed: anchor byte,
the four located dots with a closing quote the configured digit count after
each, and the parsed timestamp followed by a comma. -/
def SchemaChecksPassed (json : List Char) (cfg : ParsingConfig) (t : BookTicker) : Prop :=
  ∃ d1 d2 d3 d4,
    byteAt json cfg.start = some 'b' ∧
    findFrom json (cfg.start + 4) '.' = some d1 ∧
    byteAt json (d1 + cfg.price_precision + 1) = some qc ∧
    findFrom json (d1 + cfg.price_precision + 1 + 7) '.' = some d2 ∧
    byteAt json (d2 + cfg.volume_precision + 1) = some qc ∧
    findFrom json (d2 + cfg.volume_precision + 1 + 7) '.' = some d3 ∧
    byteAt json (d3 + cfg.price_precision + 1) = some qc ∧
    findFrom json (d3 + cfg.price_precision + 1 + 7) '.' = some d4 ∧
    byteAt json (d4 + cfg.volume_precision + 1) = some qc ∧
    parseU64 (slice json (d4 + cfg.volume_precision + 1 + 6)
      (d4 + cfg.volume_precision + 1 + 6 + cfg.transaction_time_digits)) = some t.T ∧
    byteAt json (d4 + cfg.volume_precision + 1 + 6 + cfg.transaction_time_digits) = some ','

/-- Dot-position invariant of the four returned slices: each contains a
dot, the first dot of each slice is followed by exactly the configured
digit count within the slice, and that dot is the first dot at or after the
field's start offset in the whole remaining buffer. -/
def DotInvariant (json : List Char) (cfg : ParsingConfig) (t : BookTicker) : Prop :=
  ∃ k1 k2 k3 k4,
    findChar '.' t.b = some k1 ∧ t.b.length = k1 + cfg.price_precision + 1 ∧
    findFrom json (cfg.start + 4) '.' = some (cfg.start + 4 + k1) ∧
    findChar '.' t.B = some k2 ∧ t.B.length = k2 + cfg.volume_precision + 1 ∧
    findFrom json (cfg.start + 4 + t.b.length + 7) '.'
      = some (cfg.start + 4 + t.b.length + 7 + k2) ∧
    findChar '.' t.a = some k3 ∧ t.a.length = k3 + cfg.price_precision + 1 ∧
    findFrom json (cfg.start + 4 + t.b.length + 7 + t.B.length + 7) '.'
      = some (cfg.start + 4 + t.b.length + 7 + t.B.length + 7 + k3) ∧
    findChar '.' t.A = some k4 ∧ t.A.length = k4 + cfg.volume_precision + 1 ∧
    findFrom json (cfg.start + 4 + t.b.length + 7 + t.B.length + 7 + t.a.length + 7) '.'
      = some (cfg.start + 4 + t.b.length + 7 + t.B.length + 7 + t.a.length + 7 + k4)

/-- Every byte position a successful decode touches is strictly inside the
buffer: the anchor, the byte after each field end (the closing quote), and
the timestamp's terminating comma. -/
def InBounds (json : List Char) (cfg : ParsingConfig) (t : BookTicker) : Prop :=
  cfg.start < json.length
  ∧ cfg.start + 4 + t.b.length < json.length
  ∧ cfg.start + 4 + t.b.length + 7 + t.B.length < json.length
  ∧ cfg.start + 4 + t.b.length + 7 + t.B.length + 7 + t.a.length < json.length
  ∧ cfg.start + 4 + t.b.length + 7 + t.B.length + 7 + t.a.length + 7 + t.A.length
      < json.length
  ∧ cfg.start + 4 + t.b.length + 7 + t.B.length + 7 + t.a.length + 7 + t.A.length + 6
      + cfg.transaction_time_digits < json.length

/-- Relating a successful field extraction to the dot position inside the
returned slice. -/
lemma field_dot_spec {json : List Char} {s d p : Nat} {v : List Char}
    (hd : findFrom json s '.' = some d)
    (hq : byteAt json (d + p + 1) = some qc)
    (hv : v = slice json s (d + p + 1)) :
    ∃ k, d = s + k ∧ findChar '.' v = some k ∧ v.length = k + p + 1 := by
  obtain ⟨k, hk, hfc⟩ := findFrom_inv hd
  have hlt : d + p + 1 < json.length := byteAt_some_lt hq
  have hlen : v.length = k + p + 1 := by
    rw [hv, slice_length (by omega) (by omega)]
    omega
  refine ⟨k, hk, ?_, hlen⟩
  rw [hv]
  unfold slice
  apply findChar_take hfc
  omega

/-! Concrete message components used by the witnesses. -/

/-- Prefix of the sample message, everything before the opening quote of
the `b` key. -/
def w1pre : List Char := ("\x7b\"e\":\"bookTicker\",\"u\":1,\"s\":\"BTCUSDT\",").data

/-- Suffix of the sample message after the timestamp's comma. -/
def w1suf : List Char := ("\"E\":1744760290967\x7d").data

def w1bi : List Char := ("83604").data
def w1bf : List Char := ("80").data
def w1Bi : List Char := ("10").data
def w1Bf : List Char := ("746").data
def w1ai : List Char := ("83604").data
def w1af : List Char := ("90").data
def w1Ai : List Char := ("9").data
def w1Af : List Char := ("514").data
def w1T : List Char := ("1744760290967").data

/-- C1: for every well-formed message of the assumed fixed schema (anchor
byte `b` at `config.start`, fields in the fixed order, the configured
fractional-digit and timestamp-digit counts), the five fields `T`, `b`,
`B`, `a`, `A` returned by `parse_book_ticker` are byte-identical to the
fields obtained by decoding the same message with the general-purpose,
schema-tolerant reference decoder `refDecode`. -/
theorem c1_fast_extractor_equals_reference_decode
    (pre bi bf Bi Bf ai af Ai Af Td suf : List Char) (cfg : ParsingConfig)
    (hbi : bi.all isDig = true) (hbf : bf.all isDig = true)
    (hBi : Bi.all isDig = true) (hBf : Bf.all isDig = true)
    (hai : ai.all isDig = true) (haf : af.all isDig = true)
    (hAi : Ai.all isDig = true) (hAf : Af.all isDig = true)
    (hTne : Td ≠ []) (hTd : Td.all isDig = true) (hTv : digitVal Td < 2 ^ 64)
    (hstart : cfg.start = pre.length + 1)
    (hpp : cfg.price_precision = bf.length) (hpp2 : af.length = bf.length)
    (hvp : cfg.volume_precision = Bf.length) (hvp2 : Af.length = Bf.length)
    (htd : cfg.transaction_time_digits = Td.length)
    (hno : ∀ p, p < pre.length →
      ¬ pfxAt (render pre (fld bi bf) (fld Bi Bf) (fld ai af) (fld Ai Af) Td suf) p keyB) :
    parse_book_ticker (render pre (fld bi bf) (fld Bi Bf) (fld ai af) (fld Ai Af) Td suf) cfg
      = refDecode (render pre (fld bi bf) (fld Bi Bf) (fld ai af) (fld Ai Af) Td suf)
    ∧ refDecode (render pre (fld bi bf) (fld Bi Bf) (fld ai af) (fld Ai Af) Td suf)
      = some { T := digitVal Td, b := fld bi bf, B := fld Bi Bf
               a := fld ai af, A := fld Ai Af } := by
  have h1 := parse_render pre bi bf Bi Bf ai af Ai Af Td suf cfg hbi hbf hBi hBf hai haf
    hAi hAf hTne hTd hTv hstart hpp hpp2 hvp hvp2 htd
  have h2 := refDecode_render pre bi bf Bi Bf ai af Ai Af Td suf hbi hbf hBi hBf hai haf
    hAi hAf hTne hTd hTv hno
  exact ⟨h1.trans h2.symm, h2⟩

/-- Witness for C1 at the concrete sample message. -/
theorem c1_fast_extractor_equals_reference_decode_witness :
    parse_book_ticker (render w1pre (fld w1bi w1bf) (fld w1Bi w1Bf) (fld w1ai w1af)
        (fld w1Ai w1Af) w1T w1suf) c3cfg
      = refDecode (render w1pre (fld w1bi w1bf) (fld w1Bi w1Bf) (fld w1ai w1af)
        (fld w1Ai w1Af) w1T w1suf)
    ∧ refDecode (render w1pre (fld w1bi w1bf) (fld w1Bi w1Bf) (fld w1ai w1af)
        (fld w1Ai w1Af) w1T w1suf)
      = some { T := digitVal w1T, b := fld w1bi w1bf, B := fld w1Bi w1Bf
               a := fld w1ai w1af, A := fld w1Ai w1Af } :=
  c1_fast_extractor_equals_reference_decode w1pre w1bi w1bf w1Bi w1Bf w1ai w1af w1Ai w1Af
    w1T w1suf c3cfg (by decide) (by decide) (by decide) (by decide) (by decide) (by decide)
    (by decide) (by decide) (by decide) (by decide) (by decide) (by decide) (by decide)
    (by decide) (by decide) (by decide) (by decide) (by decide)

/-- C2: `parse_book_ticker` performs exactly the specified steps in order:
per quoted field, first dot from the field start, a fixed fractional digit
count after the dot, closing-quote verification; 4 bytes skipped after the
anchor, 7 between quoted fields; then exactly `transaction_time_digits`
bytes starting 6 bytes after the last quoted field, verified to be followed
by a comma and parsed as an unsigned integer. -/
theorem c2_algorithm_steps (json : List Char) (cfg : ParsingConfig) :
    parse_book_ticker json cfg = parse_book_ticker_steps json cfg :=
  parse_eq_steps json cfg

/-- C3: the concrete sample message decodes, under the configuration with
`start` at the offset of the `b` field, price precision 2, volume precision
3 and 13 timestamp digits, to exactly the expected tick. -/
theorem c3_concrete_message : parse_book_ticker c3msg c3cfg = some c3tick := by
  decide

/-- C4: for every input buffer and configuration, a tick is returned only
when every byte the fixed layout expects (anchor `b`, closing quotes,
trailing comma) matches, every decimal point is found and the timestamp
parses as an unsigned integer — equivalently, whenever any of these checks
fails, `parse_book_ticker` signals the failure by returning no tick. -/
theorem c4_schema_mismatch (json : List Char) (cfg : ParsingConfig) (t : BookTicker)
    (h : parse_book_ticker json cfg = some t) : SchemaChecksPassed json cfg t := by
  obtain ⟨d1, d2, d3, d4, h0, h1, h2, _, h3, h4, _, h5, h6, _, h7, h8, _, h9, h10⟩ :=
    parse_some_inv h
  exact ⟨d1, d2, d3, d4, h0, h1, h2, h3, h4, h5, h6, h7, h8, h9, h10⟩

/-- Witness for C4 at the concrete sample message. -/
theorem c4_schema_mismatch_witness : SchemaChecksPassed c3msg c3cfg c3tick :=
  c4_schema_mismatch c3msg c3cfg c3tick (by decide)

/-- C5: for every precision `p ≤ 8`, the synthetic schema-conforming
message with exactly `p` fractional digits decodes correctly under
precision `p`, while the same message with one fractional digit more (or,
when `p ≥ 1`, one fewer) fails, the closing-quote check finding a
non-quote byte at the computed field end. -/
theorem c5_digit_count_boundary :
    ∀ p, p < 9 →
      (parse_book_ticker (synthMsg p p) (synthCfg p) = some (synthTick p))
      ∧ (parse_book_ticker (synthMsg p (p + 1)) (synthCfg p) = none
         ∧ byteAt (synthMsg p (p + 1)) (synthPre.length + 7 + p) ≠ some qc)
      ∧ (1 ≤ p →
         parse_book_ticker (synthMsg p (p - 1)) (synthCfg p) = none
         ∧ byteAt (synthMsg p (p - 1)) (synthPre.length + 7 + p) ≠ some qc) := by
  decide

/-- Witness for C5 at precision 2. -/
theorem c5_digit_count_boundary_witness :
    (parse_book_ticker (synthMsg 2 2) (synthCfg 2) = some (synthTick 2))
    ∧ (parse_book_ticker (synthMsg 2 3) (synthCfg 2) = none
       ∧ byteAt (synthMsg 2 3) (synthPre.length + 7 + 2) ≠ some qc)
    ∧ (1 ≤ 2 →
       parse_book_ticker (synthMsg 2 1) (synthCfg 2) = none
       ∧ byteAt (synthMsg 2 1) (synthPre.length + 7 + 2) ≠ some qc) :=
  c5_digit_count_boundary 2 (by decide)

/-- C6 counterexample: the anchor search is not performed exactly once per
run — in a run over two messages the loop performs the linear text search
for `b":` twice (once per message), refuting "located exactly once ... and
then reused for every subsequent decode call". -/
theorem c6_counterexample_search_once :
    ¬ (((runLoop c3cfg { ticks_acc := 0, measurements_num := 0 }
        [(c3msg, 1), (c3msg, 1)]).1.map Prod.fst).length = 1) := by
  decide

/-- C6 amended: the loop performs the anchor text search once per received
message (its result is only diagnostic output, never fed back into the
configuration), every decode reuses the same unchanged `cfg.start`, and
each decode itself re-checks only the single anchor byte `b` at that
offset, failing the decode (and hence the run) on mismatch instead of
recomputing the offset. -/
theorem c6_anchor_search_per_message :
    (∀ (cfg : ParsingConfig) (st : LoopStats) (msgs : List (List Char × Nat)),
      (∀ m ∈ msgs, parse_book_ticker m.1 cfg ≠ none) →
      (runLoop cfg st msgs).1
        = msgs.map (fun m => (findPat anchorPat m.1, parse_book_ticker m.1 cfg)))
    ∧ (∀ (json : List Char) (cfg : ParsingConfig) (t : BookTicker),
      parse_book_ticker json cfg = some t → byteAt json cfg.start = some 'b') := by
  constructor
  · exact runLoop_trace
  · intro json cfg t h
    obtain ⟨_, _, _, _, h0, _⟩ := parse_some_inv h
    exact h0

/-- Witness for C6's amended statement on a one-message run. -/
theorem c6_anchor_search_per_message_witness :
    (runLoop c3cfg { ticks_acc := 0, measurements_num := 0 } [(c3msg, 1)]).1
      = [(c3msg, 1)].map (fun m => (findPat anchorPat m.1, parse_book_ticker m.1 c3cfg))
    ∧ byteAt c3msg c3cfg.start = some 'b' :=
  ⟨c6_anchor_search_per_message.1 c3cfg { ticks_acc := 0, measurements_num := 0 }
      [(c3msg, 1)] (by decide),
   c6_anchor_search_per_message.2 c3msg c3cfg c3tick (by decide)⟩

/-- C7 counterexample: with `u64` accumulators the accumulated-cycles
counter does not equal `c1 + ... + cn` in general — two samples of `2 ^ 63`
wrap the counter to 0. -/
theorem c7_counterexample_overflow :
    ¬ ((runLoop c3cfg { ticks_acc := 0, measurements_num := 0 }
        [(c3msg, 2 ^ 63), (c3msg, 2 ^ 63)]).2.ticks_acc = 2 ^ 63 + 2 ^ 63) := by
  decide

/-- C7 amended: after a run over `n ≥ 1` decodable messages with elapsed
samples `c1..cn`, provided the sample total and the message count stay
below `2 ^ 64` (no `u64` overflow), the accumulated-cycles counter equals
`c1 + ... + cn`, the sample count equals `n`, and the reported running
average is their unsigned integer quotient `⌊(c1 + ... + cn) / n⌋`. -/
theorem c7_running_average
    (cfg : ParsingConfig) (msgs : List (List Char × Nat))
    (hok : ∀ m ∈ msgs, parse_book_ticker m.1 cfg ≠ none)
    (_hne : msgs ≠ [])
    (hs : (msgs.map Prod.snd).sum < M64)
    (hl : msgs.length < M64) :
    (runLoop cfg { ticks_acc := 0, measurements_num := 0 } msgs).2.ticks_acc
      = (msgs.map Prod.snd).sum
    ∧ (runLoop cfg { ticks_acc := 0, measurements_num := 0 } msgs).2.measurements_num
      = msgs.length
    ∧ avgOf (runLoop cfg { ticks_acc := 0, measurements_num := 0 } msgs).2
      = (msgs.map Prod.snd).sum / msgs.length := by
  have h := runLoop_stats cfg msgs { ticks_acc := 0, measurements_num := 0 } hok
    M64_pos M64_pos
  have h1 : (runLoop cfg { ticks_acc := 0, measurements_num := 0 } msgs).2.ticks_acc
      = (msgs.map Prod.snd).sum := by
    rw [h.1]
    simp only [Nat.zero_add]
    exact Nat.mod_eq_of_lt hs
  have h2 : (runLoop cfg { ticks_acc := 0, measurements_num := 0 } msgs).2.measurements_num
      = msgs.length := by
    rw [h.2]
    simp only [Nat.zero_add]
    exact Nat.mod_eq_of_lt hl
  exact ⟨h1, h2, by unfold avgOf; rw [h1, h2]⟩

/-- Witness for C7's amended statement on a two-message run with samples 5
and 7. -/
theorem c7_running_average_witness :
    (runLoop c3cfg { ticks_acc := 0, measurements_num := 0 }
        [(c3msg, 5), (c3msg, 7)]).2.ticks_acc
      = ([(c3msg, 5), (c3msg, 7)].map Prod.snd).sum
    ∧ (runLoop c3cfg { ticks_acc := 0, measurements_num := 0 }
        [(c3msg, 5), (c3msg, 7)]).2.measurements_num
      = [(c3msg, 5), (c3msg, 7)].length
    ∧ avgOf (runLoop c3cfg { ticks_acc := 0, measurements_num := 0 }
        [(c3msg, 5), (c3msg, 7)]).2
      = ([(c3msg, 5), (c3msg, 7)].map Prod.snd).sum / [(c3msg, 5), (c3msg, 7)].length :=
  c7_running_average c3cfg [(c3msg, 5), (c3msg, 7)] (by decide) (by decide) (by decide)
    (by decide)

/-- C8: `measure` invokes the operation exactly once, synchronously (its
effect on the threaded state is a single application), and returns the pair
of the elapsed cycles and the operation's result, where the elapsed cycles
are the second counter read minus the first in wrapping 64-bit unsigned
arithmetic — equal to the true difference whenever the counter does not
roll over within the measured window. -/
theorem c8_measure_once (α σ : Type) (c1 c2 : Nat) (f : σ → α × σ) (s : σ) :
    measure c1 c2 f s = ((counter_elapsed c1 c2, (f s).1), (f s).2)
    ∧ (c1 ≤ c2 → c2 < M64 → counter_elapsed c1 c2 = c2 - c1) := by
  constructor
  · rfl
  · intro h1 h2
    unfold counter_elapsed
    have hc1 : c1 % M64 = c1 := Nat.mod_eq_of_lt (lt_of_le_of_lt h1 h2)
    rw [hc1]
    rw [show M64 = 18446744073709551616 from by norm_num [M64]] at h2 ⊢
    omega

/-- Witness for C8 at a concrete operation and concrete counter reads. -/
theorem c8_measure_once_witness :
    measure 10 25 (fun n : Nat => (n * 2, n + 1)) 5 = ((counter_elapsed 10 25, 10), 6)
    ∧ counter_elapsed 10 25 = 15 := by
  have h := c8_measure_once Nat Nat 10 25 (fun n : Nat => (n * 2, n + 1)) 5
  exact ⟨by rw [h.1], by rw [h.2 (by decide) (by decide)]⟩

/-- C9: whenever the decode succeeds, each returned slice contains a
decimal point, the first dot of each slice is followed by exactly
`price_precision` (for `b`, `a`) or `volume_precision` (for `B`, `A`)
bytes within the slice, and that dot is the first dot at or after the
field's start offset in the whole remaining buffer — the only guard tying
the dot to the field itself being the closing-quote check. -/
theorem c9_dot_invariant (json : List Char) (cfg : ParsingConfig) (t : BookTicker)
    (h : parse_book_ticker json cfg = some t) : DotInvariant json cfg t := by
  obtain ⟨d1, d2, d3, d4, h0, hf1, hq1, hs1, hf2, hq2, hs2, hf3, hq3, hs3,
    hf4, hq4, hs4, hT, hcm⟩ := parse_some_inv h
  obtain ⟨k1, hk1, hc1, hl1⟩ := field_dot_spec hf1 hq1 hs1
  obtain ⟨k2, hk2, hc2, hl2⟩ := field_dot_spec hf2 hq2 hs2
  obtain ⟨k3, hk3, hc3, hl3⟩ := field_dot_spec hf3 hq3 hs3
  obtain ⟨k4, hk4, hc4, hl4⟩ := field_dot_spec hf4 hq4 hs4
  refine ⟨k1, k2, k3, k4, hc1, hl1, ?_, hc2, hl2, ?_, hc3, hl3, ?_, hc4, hl4, ?_⟩
  · rw [hf1, hk1]
  · rw [show cfg.start + 4 + t.b.length + 7 = d1 + cfg.price_precision + 1 + 7 from by
      omega]
    rw [hf2, hk2]
  · rw [show cfg.start + 4 + t.b.length + 7 + t.B.length + 7
        = d2 + cfg.volume_precision + 1 + 7 from by omega]
    rw [hf3, hk3]
  · rw [show cfg.start + 4 + t.b.length + 7 + t.B.length + 7 + t.a.length + 7
        = d3 + cfg.price_precision + 1 + 7 from by omega]
    rw [hf4, hk4]

/-- Witness for C9 at the concrete sample message. -/
theorem c9_dot_invariant_witness : DotInvariant c3msg c3cfg c3tick :=
  c9_dot_invariant c3msg c3cfg c3tick (by decide)

/-- C10: a tick is returned only when every byte position the decode
touches lies strictly inside the buffer (anchor, field ends with their
following quote bytes, and the timestamp range with its terminating
comma); in particular any buffer no longer than `config.start` always
fails to decode. -/
theorem c10_memory_safety :
    (∀ (json : List Char) (cfg : ParsingConfig) (t : BookTicker),
      parse_book_ticker json cfg = some t → InBounds json cfg t)
    ∧ (∀ (json : List Char) (cfg : ParsingConfig),
      json.length ≤ cfg.start → parse_book_ticker json cfg = none) := by
  constructor
  · intro json cfg t h
    obtain ⟨d1, d2, d3, d4, h0, hf1, hq1, hs1, hf2, hq2, hs2, hf3, hq3, hs3,
      hf4, hq4, hs4, hT, hcm⟩ := parse_some_inv h
    obtain ⟨k1, hk1, hc1, hl1⟩ := field_dot_spec hf1 hq1 hs1
    obtain ⟨k2, hk2, hc2, hl2⟩ := field_dot_spec hf2 hq2 hs2
    obtain ⟨k3, hk3, hc3, hl3⟩ := field_dot_spec hf3 hq3 hs3
    obtain ⟨k4, hk4, hc4, hl4⟩ := field_dot_spec hf4 hq4 hs4
    have b0 := byteAt_some_lt h0
    have b1 := byteAt_some_lt hq1
    have b2 := byteAt_some_lt hq2
    have b3 := byteAt_some_lt hq3
    have b4 := byteAt_some_lt hq4
    have bT := byteAt_some_lt hcm
    exact ⟨by omega, by omega, by omega, by omega, by omega, by omega⟩
  · intro json cfg h
    unfold parse_book_ticker
    rw [byteAt_none h]
    rfl

/-- Witness for C10: bounds at the concrete sample message, and failure on
a buffer shorter than the configured anchor offset. -/
theorem c10_memory_safety_witness :
    InBounds c3msg c3cfg c3tick ∧ parse_book_ticker [] c3cfg = none :=
  ⟨c10_memory_safety.1 c3msg c3cfg c3tick (by decide),
   c10_memory_safety.2 [] c3cfg (by decide)⟩

end Binance
